import Mathlib

/-!
Verification of the `nb_open_prescribing` client core against its code.

The Lean definitions below shallowly embed the Python modules
`nb_open_prescribing/api.py`, `nb_open_prescribing/model.py` and
`nb_open_prescribing/util.py`:

* Python `dict` objects are embedded as insertion-ordered association lists
  (`List (String × α)`) with the dict-comprehension update semantics
  (a repeated key keeps its first position but takes its last value);
* `collections.ChainMap` is embedded as a list of such maps searched
  left to right, with `Mapping.items()` iteration order (keys of later
  maps first, earlier maps appended);
* `datetime.strptime(s, "%Y-%m-%d").date()` is embedded as an explicit
  character-level date reader;
* machine floats that only carry parsed JSON numbers are embedded as `ℚ`;
* CPython object identity (needed for the aliasing behaviour of
  `LocationBoundaries`) is embedded by indexing the feature objects of the
  source collection and passing the current contents of those objects (a
  "heap") to each observer.
-/

/-! ### Python dict embedding -/

/-- Python `d[k]` / `d.get(k)` on an insertion-ordered association list:
the first entry with key `k` (entries built by `dictInsert` have unique
keys, so this is the entry for `k`). -/
def dictLookup {α : Type} (d : List (String × α)) (k : String) : Option α :=
  (d.find? (fun p => p.1 == k)).map (fun p => p.2)

/-- Python `d[k] = v`: if `k` is already present the entry keeps its
position and takes the new value, otherwise the pair is appended. -/
def dictInsert {α : Type} (d : List (String × α)) (k : String) (v : α) :
    List (String × α) :=
  if d.any (fun p => p.1 == k) then
    d.map (fun p => if p.1 == k then (p.1, v) else p)
  else
    d ++ [(k, v)]

/-- Building a Python dict from a sequence of key/value pairs (the
semantics of a dict comprehension). -/
def dictBuild {α : Type} (kvs : List (String × α)) : List (String × α) :=
  kvs.foldl (fun d kv => dictInsert d kv.1 kv.2) []

/-! ### `OpenPrescribingHttpApi._search` query-parameter construction
(`api.py`, lines 90–96) -/

/-- Query parameters: a Python `dict[str, str]`. -/
abbrev Params := List (String × String)

/-- The list of maps of the `ChainMap` built by `_search`:
`params = ChainMap({"format": "json"})`, then, when `api_params` is truthy,
`params.maps.append(api_params)`.  (`None` and the empty dict are falsy.) -/
def chainMaps (api_params : Option Params) : List Params :=
  match api_params with
  | none => [[("format", "json")]]
  | some a => if a.isEmpty then [[("format", "json")]] else [[("format", "json")], a]

/-- `ChainMap.__getitem__`: search the maps left to right, first hit wins. -/
def chainMapLookup : List Params → String → Option String
  | [], _ => none
  | m :: rest, k =>
    match dictLookup m k with
    | some v => some v
    | none => chainMapLookup rest k

/-- `dict.update(dict.fromkeys(m))` on a key list: existing keys keep their
position, new keys are appended in `m`'s order. -/
def keysUnion (ks : List String) (m : Params) : List String :=
  m.foldl (fun ks p => if ks.contains p.1 then ks else ks ++ [p.1]) ks

/-- `ChainMap.__iter__`: `d = {}; for mapping in reversed(maps): d.update(dict.fromkeys(mapping))`. -/
def chainMapKeys (maps : List Params) : List String :=
  maps.reverse.foldl keysUnion []

/-- The value the `ChainMap` sent by `_search` associates to key `k`. -/
def searchParamsLookup (api_params : Option Params) (k : String) : Option String :=
  chainMapLookup (chainMaps api_params) k

/-- `ChainMap.items()` as consumed by `requests` when encoding the query
string: iterate the keys of the chain, look each one up. -/
def searchParamsItems (api_params : Option Params) : List (String × String) :=
  (chainMapKeys (chainMaps api_params)).filterMap
    (fun k => (searchParamsLookup api_params k).map (fun v => (k, v)))

/-! ### `datetime.strptime(s, "%Y-%m-%d").date()` (`model.py`, line 32) -/

/-- A `datetime.date`. -/
structure Date where
  year : Nat
  month : Nat
  day : Nat
deriving DecidableEq, Repr

/-- Proleptic Gregorian leap year, as used by `datetime.date`. -/
def isLeapYear (y : Nat) : Bool :=
  (y % 4 == 0 && y % 100 != 0) || (y % 400 == 0)

/-- Number of days of month `m` of year `y` (`m` between 1 and 12). -/
def daysInMonth (y m : Nat) : Nat :=
  if m == 2 then (if isLeapYear y then 29 else 28)
  else if m == 4 || m == 6 || m == 9 || m == 11 then 30
  else 31

/-- ASCII decimal digit test (`\d` of the `_strptime` regexes). -/
def isAsciiDigit (c : Char) : Bool :=
  48 ≤ c.toNat && c.toNat ≤ 57

/-- Numeric value of a digit string. -/
def digitsToNat (cs : List Char) : Nat :=
  cs.foldl (fun n c => n * 10 + (c.toNat - 48)) 0

/-- Split a character list at every `-` (the literal separators of the
format `"%Y-%m-%d"`; the digit groups of the format cannot contain `-`). -/
def splitOnDash : List Char → List (List Char)
  | [] => [[]]
  | c :: rest =>
    let r := splitOnDash rest
    if c == '-' then [] :: r
    else
      match r with
      | [] => [[c]]
      | g :: gs => (c :: g) :: gs

/-- `datetime.strptime(s, "%Y-%m-%d").date()`, `None` for `ValueError`:
the whole string must be consumed; `%Y` matches exactly four digits; `%m`
matches one or two digits with value 1–12; `%d` matches one or two digits
with value 1–31; the resulting triple must be an actual calendar date with
year at least `MINYEAR = 1`. -/
def parseDateYMD (s : String) : Option Date :=
  match splitOnDash s.data with
  | [ys, ms, ds] =>
    if ys.length == 4 && ys.all isAsciiDigit
        && (ms.length == 1 || ms.length == 2) && ms.all isAsciiDigit
        && (ds.length == 1 || ds.length == 2) && ds.all isAsciiDigit then
      let y := digitsToNat ys
      let m := digitsToNat ms
      let d := digitsToNat ds
      if 1 ≤ y && 1 ≤ m && m ≤ 12 && 1 ≤ d && d ≤ daysInMonth y m then
        some ⟨y, m, d⟩
      else none
    else none
  | _ => none

/-! ### Data model records (`model.py`) -/

/-- Raw JSON spend object (`SpendingBySICBL` `TypedDict`). -/
structure SpendingBySICBL where
  items : Int
  quantity : ℚ
  actual_cost : ℚ
  date : String
  row_id : String
  row_name : String
deriving DecidableEq, Repr

/-- `ValueError`, as raised by `strptime` on malformed input. -/
inductive PyValueError where
  | valueError : PyValueError
deriving DecidableEq, Repr

/-- The frozen dataclass `LocationSpend`. -/
structure LocationSpend where
  items : Int
  quantity : ℚ
  actual_cost : ℚ
  date : Date
  row_id : String
  row_name : String
deriving DecidableEq, Repr

/-- `LocationSpend.from_dict` (`model.py`, lines 25–34): copy every field,
parsing `date`; a `strptime` failure propagates and no record is built. -/
def LocationSpend.from_dict (data : SpendingBySICBL) :
    Except PyValueError LocationSpend :=
  match parseDateYMD data.date with
  | some d =>
    Except.ok
      { items := data.items
        quantity := data.quantity
        actual_cost := data.actual_cost
        date := d
        row_id := data.row_id
        row_name := data.row_name }
  | none => Except.error PyValueError.valueError

/-- `dataclasses.FrozenInstanceError`, raised by the `__setattr__` that
`@dataclass(frozen=True)` generates. -/
inductive PyFrozenInstanceError where
  | cannotAssignToField (name : String) : PyFrozenInstanceError
deriving DecidableEq, Repr

/-- Attribute assignment on the frozen dataclass `LocationSpend`
(`model.py`, line 16): the generated `__setattr__` raises
`FrozenInstanceError` unconditionally, for every attribute name and value. -/
def LocationSpend.setattr {β : Type} (_r : LocationSpend) (name : String)
    (_v : β) : Except PyFrozenInstanceError LocationSpend :=
  Except.error (PyFrozenInstanceError.cannotAssignToField name)

/-- The `BnfCodeType` literal type. -/
inductive BnfCodeType where
  | bnfChapter
  | bnfSection
  | bnfParagraph
  | chemical
  | product
  | productFormat
deriving DecidableEq, Repr

/-- The frozen dataclass `DrugDetail` (`model.py`, lines 60–64). -/
structure DrugDetail where
  type : BnfCodeType
  id : String
  name : String
deriving DecidableEq, Repr

/-- Attribute assignment on the frozen dataclass `DrugDetail`: raises
`FrozenInstanceError` unconditionally. -/
def DrugDetail.setattr {β : Type} (_d : DrugDetail) (name : String)
    (_v : β) : Except PyFrozenInstanceError DrugDetail :=
  Except.error (PyFrozenInstanceError.cannotAssignToField name)

/-! ### API client result construction (`api.py`) -/

/-- A GET request the client would issue (path joined to the service URL,
plus the caller-supplied query parameters). -/
structure HttpRequest where
  path : String
  api_params : Option Params
deriving DecidableEq, Repr

/-- `NotImplementedError`. -/
inductive PyNotImplementedError where
  | notImplementedError : PyNotImplementedError
deriving DecidableEq, Repr

/-- The list comprehension
`[LocationSpend.from_dict(x) for x in response.json()]`: left to right,
the first `ValueError` aborts the whole comprehension. -/
def mapFromDict : List SpendingBySICBL → Except PyValueError (List LocationSpend)
  | [] => Except.ok []
  | x :: xs =>
    match LocationSpend.from_dict x with
    | Except.ok r =>
      match mapFromDict xs with
      | Except.ok rs => Except.ok (r :: rs)
      | Except.error e => Except.error e
    | Except.error e => Except.error e

/-- `OpenPrescribingHttpApi.query_spending_by_location` (`api.py`,
lines 50–63), applied to the decoded JSON array of the response body. -/
def query_spending_by_location (body : List SpendingBySICBL) :
    Except PyValueError (List LocationSpend) :=
  mapFromDict body

/-- `OpenPrescribingHttpApi.query_spending_by_code` (`api.py`, lines 65–68):
the body is `raise NotImplementedError` (the `_search` call is commented
out), so no request is issued and no value is produced.  The first
component lists the GET requests the call performs. -/
def query_spending_by_code (_api_params : Option Params) :
    List HttpRequest × Except PyNotImplementedError Unit :=
  ([], Except.error PyNotImplementedError.notImplementedError)

/-! ### GeoJSON model and `LocationBoundaries` (`model.py`, lines 70–150) -/

/-- The `FeatureProperties` `TypedDict`. -/
structure FeatureProperties where
  name : String
  code : String
  ons_code : Option String
  org_type : String
deriving DecidableEq, Repr

/-- Polygon coordinates (`list[list[list[float]]]`). -/
abbrev Coordinates := List (List (List ℚ))

/-- The `Geometry` `TypedDict`. -/
structure Geometry where
  type : String
  coordinates : Coordinates
deriving DecidableEq, Repr

/-- The `Feature` `TypedDict`. -/
structure Feature where
  type : String
  properties : FeatureProperties
  geometry : Geometry
deriving DecidableEq, Repr

/-- The `CRSProperties` `TypedDict`. -/
structure CRSProperties where
  name : String
deriving DecidableEq, Repr

/-- The `CRS` `TypedDict`. -/
structure CRS where
  type : String
  properties : CRSProperties
deriving DecidableEq, Repr

/-- The `FeatureCollection` `TypedDict`. -/
structure FeatureCollection where
  type : String
  crs : CRS
  features : List Feature
deriving DecidableEq, Repr

/-- The key/value pairs produced by iterating
`feature["properties"]["code"]: feature for feature in feature_collection["features"]`.
CPython dict values are object references; a reference to the `i`-th
feature object of the source collection is embedded as the index `n + i`
(`n` is the index of the first feature of the suffix being traversed). -/
def featureCodeIndexPairs : List Feature → Nat → List (String × Nat)
  | [], _ => []
  | f :: rest, n => (f.properties.code, n) :: featureCodeIndexPairs rest (n + 1)

/-- The state a `LocationBoundaries.__init__` call builds (`model.py`,
lines 116–121): `self.feature_collection = deepcopy(feature_collection)`
is an independent value snapshot, while `self._code_to_feature_mapping` is
a dict comprehension over the features of the ORIGINAL argument
(`feature_collection["features"]`, not the deep copy), so its values alias
the caller's feature objects. -/
structure LocationBoundaries where
  feature_collection : FeatureCollection
  code_to_feature_mapping : List (String × Nat)
deriving DecidableEq, Repr

/-- `LocationBoundaries.__init__`. -/
def LocationBoundaries.init (fc : FeatureCollection) : LocationBoundaries :=
  { feature_collection := fc
    code_to_feature_mapping := dictBuild (featureCodeIndexPairs fc.features 0) }

/-- The `crs` property: read from the deep copy. -/
def LocationBoundaries.crsOf (lb : LocationBoundaries) : String :=
  lb.feature_collection.crs.properties.name

/-- The `features` property (`list(self._code_to_feature_mapping.values())`)
and equally one pass of `__iter__`.  `heap` carries the current contents
of the source collection's feature objects, in construction-time index
order; at construction time it equals the source `features` list. -/
def LocationBoundaries.featuresOf (lb : LocationBoundaries)
    (heap : List Feature) : List Feature :=
  lb.code_to_feature_mapping.filterMap (fun p => heap[p.2]?)

/-- `feature_collection_from_code` / `__getitem__` (`model.py`,
lines 135–146): `none` embeds the `KeyError` of
`self._code_to_feature_mapping[code]`; `type` and `crs` are read from the
deep copy, the single feature through the aliased reference. -/
def LocationBoundaries.fromCode (lb : LocationBoundaries)
    (heap : List Feature) (code : String) : Option FeatureCollection :=
  (dictLookup lb.code_to_feature_mapping code).bind (fun i =>
    (heap[i]?).map (fun f =>
      { type := lb.feature_collection.type
        crs := lb.feature_collection.crs
        features := [f] }))

/-! ### `RateLimiter` (`util.py`) -/

/-- `RateLimiter` state: the configuration plus the guarded mutable
counter.  Wall-clock instants are embedded as `ℚ`. -/
structure RateLimiter where
  calls : Nat
  period : ℚ
  number_of_calls : Nat
  last_reset : ℚ
deriving DecidableEq, Repr

/-- `RateLimiter.__init__(calls, period)` at construction instant `now`:
`self.calls = max(1, int(calls))`, `self.period = float(period)` — the
period is stored unvalidated — `self.number_of_calls = 0`,
`self.last_reset = time()`. -/
def RateLimiter.init (calls : Int) (period : ℚ) (now : ℚ) : RateLimiter :=
  { calls := (max 1 calls).toNat
    period := period
    number_of_calls := 0
    last_reset := now }

/-- One invocation of the `wrapper` closure (`util.py`, lines 35–48).
`t1` is the `time()` read computing `elapsed`, `t2` the `time()` read
stored by the reset branch (in the source the second read happens a
moment after the first).  Returns the post-invocation state and `some`
result iff the wrapped `func` was executed. -/
def RateLimiter.invoke {α : Type} (s : RateLimiter) (t1 t2 : ℚ) (f : α) :
    RateLimiter × Option α :=
  let s1 :=
    if s.period - (t1 - s.last_reset) ≤ 0 then
      { s with number_of_calls := 0, last_reset := t2 }
    else s
  let s2 := { s1 with number_of_calls := s1.number_of_calls + 1 }
  if s2.calls < s2.number_of_calls then (s2, none) else (s2, some f)

/-- Run a sequence of invocations (each given by its two `time()` reads),
counting how many executed the wrapped operation. -/
def RateLimiter.run (s : RateLimiter) (ts : List (ℚ × ℚ)) : RateLimiter × Nat :=
  ts.foldl
    (fun acc t =>
      let r := RateLimiter.invoke acc.1 t.1 t.2 ()
      (r.1, acc.2 + if r.2.isSome then 1 else 0))
    (s, 0)

/-! ### Auxiliary definitions for the verification -/

/-- Index of the first feature carrying code `k`. -/
def firstFeatureIdx : List Feature → String → Option Nat
  | [], _ => none
  | f :: rest, k =>
    if f.properties.code = k then some 0
    else (firstFeatureIdx rest k).map (fun i => i + 1)

/-- Index of the last feature carrying code `k`. -/
def lastFeatureIdx : List Feature → String → Option Nat
  | [], _ => none
  | f :: rest, k =>
    match lastFeatureIdx rest k with
    | some i => some (i + 1)
    | none => if f.properties.code = k then some 0 else none

/-- The last feature of `fs` carrying code `k`, in input order. -/
def lastFeatureWith (fs : List Feature) (k : String) : Option Feature :=
  fs.reverse.find? (fun f => f.properties.code == k)

/-- Append a key if it is not yet present. -/
def insKey (ks : List String) (k : String) : List String :=
  if k ∈ ks then ks else ks ++ [k]

/-- Insertion-order deduplicated key list. -/
def dedupKeys (ks : List String) : List String :=
  ks.foldl insKey []

/-- Formalisation of the spec wording "date text of the form `YYYY-MM-DD`
denoting a valid calendar date": exactly four digits, a dash, exactly two
digits, a dash, exactly two digits, the three numbers forming a real
(proleptic Gregorian) calendar date.  This is the claim side of C8, to be
compared with what `parseDateYMD` (the embedded `strptime`) accepts. -/
def claimFormYYYYMMDD (s : String) : Bool :=
  match splitOnDash s.data with
  | [ys, ms, ds] =>
    ys.length == 4 && ys.all isAsciiDigit
      && ms.length == 2 && ms.all isAsciiDigit
      && ds.length == 2 && ds.all isAsciiDigit
      && (let y := digitsToNat ys
          let m := digitsToNat ms
          let d := digitsToNat ds
          1 ≤ y && 1 ≤ m && m ≤ 12 && 1 ≤ d && d ≤ daysInMonth y m)
  | _ => false

/-- A concrete feature (the shape used by the repository's own test
fixtures, with a short polygon). -/
def featureNicePlace : Feature :=
  { type := "Feature"
    properties :=
      { name := "NICE PLACE"
        code := "DEADBEEF"
        ons_code := none
        org_type := "ABC" }
    geometry := { type := "Polygon", coordinates := [[[1, 2], [3, 4]]] } }

/-- `featureNicePlace` after the in-place mutation
`feature["properties"]["name"] = "MUTATED PLACE"` of the source object. -/
def featureNicePlaceMutated : Feature :=
  { featureNicePlace with
      properties := { featureNicePlace.properties with name := "MUTATED PLACE" } }

/-- A concrete one-feature collection. -/
def fcNicePlace : FeatureCollection :=
  { type := "FeatureCollection"
    crs := { type := "name", properties := { name := "ABCD:1234" } }
    features := [featureNicePlace] }

/-- A second concrete feature with a distinct code. -/
def featureOtherPlace : Feature :=
  { type := "Feature"
    properties :=
      { name := "OTHER PLACE"
        code := "BADF00D"
        ons_code := some "E38"
        org_type := "ABC" }
    geometry := { type := "Polygon", coordinates := [[[5, 6]]] } }

/-- A concrete two-feature collection with pairwise distinct codes. -/
def fcTwoDistinct : FeatureCollection :=
  { type := "FeatureCollection"
    crs := { type := "name", properties := { name := "ABCD:1234" } }
    features := [featureNicePlace, featureOtherPlace] }

/-- A concrete collection in which two features share the code
`"DEADBEEF"` (the second carries different properties). -/
def fcDupCodes : FeatureCollection :=
  { type := "FeatureCollection"
    crs := { type := "name", properties := { name := "ABCD:1234" } }
    features := [featureNicePlace, featureOtherPlace, featureNicePlaceMutated] }

/-! ### Lemmas about the dict embedding -/

theorem dictLookup_nil {α : Type} (k : String) :
    dictLookup ([] : List (String × α)) k = none := rfl

theorem dictLookup_cons {α : Type} (k₀ : String) (v₀ : α) (d : List (String × α))
    (k : String) :
    dictLookup ((k₀, v₀) :: d) k = if k₀ = k then some v₀ else dictLookup d k := by
  simp only [dictLookup, List.find?_cons]
  by_cases h : k₀ = k
  · simp [h]
  · simp [h, beq_eq_false_iff_ne.mpr h]

theorem dictLookup_append {α : Type} (d₁ d₂ : List (String × α)) (k : String) :
    dictLookup (d₁ ++ d₂) k = (dictLookup d₁ k).or (dictLookup d₂ k) := by
  simp only [dictLookup, List.find?_append]
  cases List.find? (fun p => p.1 == k) d₁ <;> simp [Option.or]

theorem dictAny_eq_isSome {α : Type} (d : List (String × α)) (k : String) :
    d.any (fun p => p.1 == k) = (dictLookup d k).isSome := by
  induction d with
  | nil => rfl
  | cons p d ih =>
    obtain ⟨k₀, v₀⟩ := p
    rw [List.any_cons, dictLookup_cons]
    by_cases h : k₀ = k
    · simp [h]
    · simp [h, beq_eq_false_iff_ne.mpr h, ih]

theorem dictLookup_replace_self {α : Type} (d : List (String × α)) (k : String) (v : α) :
    dictLookup (d.map (fun p => if p.1 == k then (p.1, v) else p)) k
      = (dictLookup d k).map (fun _ => v) := by
  induction d with
  | nil => rfl
  | cons p d ih =>
    obtain ⟨k₀, v₀⟩ := p
    simp only [beq_iff_eq] at ih ⊢
    by_cases h : k₀ = k
    · simp [h, dictLookup_cons]
    · simp [List.map_cons, h, dictLookup_cons, ih]

theorem dictLookup_replace_other {α : Type} (d : List (String × α)) (k k' : String)
    (v : α) (hne : k' ≠ k) :
    dictLookup (d.map (fun p => if p.1 == k then (p.1, v) else p)) k'
      = dictLookup d k' := by
  induction d with
  | nil => rfl
  | cons p d ih =>
    obtain ⟨k₀, v₀⟩ := p
    simp only [beq_iff_eq] at ih ⊢
    by_cases h : k₀ = k
    · have hk : k ≠ k' := fun hh => hne hh.symm
      simp [h, dictLookup_cons, hk, ih]
    · simp [List.map_cons, h, dictLookup_cons, ih]

theorem dictLookup_dictInsert {α : Type} (d : List (String × α)) (k k' : String)
    (v : α) :
    dictLookup (dictInsert d k v) k'
      = if k' = k then some v else dictLookup d k' := by
  unfold dictInsert
  by_cases hany : d.any (fun p => p.1 == k)
  · rw [if_pos hany]
    by_cases h : k' = k
    · subst h
      rw [if_pos rfl, dictLookup_replace_self]
      rw [dictAny_eq_isSome] at hany
      cases hh : dictLookup d k' with
      | none => rw [hh] at hany; simp at hany
      | some _ => simp
    · rw [if_neg h, dictLookup_replace_other d k k' v h]
  · rw [if_neg hany, dictLookup_append]
    by_cases h : k' = k
    · subst h
      rw [dictAny_eq_isSome] at hany
      have : dictLookup d k' = none := by
        cases hh : dictLookup d k' with
        | none => rfl
        | some _ => rw [hh] at hany; simp at hany
      simp [this, dictLookup_cons, Option.or]
    · have hk : k ≠ k' := fun hh => h hh.symm
      have : dictLookup [(k, v)] k' = none := by
        rw [dictLookup_cons]
        simp [hk, dictLookup_nil]
      rw [this]
      cases dictLookup d k' <;> simp [h, Option.or]

theorem dictKeys_dictInsert {α : Type} (d : List (String × α)) (k : String) (v : α) :
    (dictInsert d k v).map Prod.fst
      = if d.any (fun p => p.1 == k) then d.map Prod.fst
        else d.map Prod.fst ++ [k] := by
  unfold dictInsert
  by_cases hany : d.any (fun p => p.1 == k)
  · rw [if_pos hany, if_pos hany, List.map_map]
    refine List.map_congr_left (fun p _ => ?_)
    by_cases h : p.1 = k <;> simp [h]
  · rw [if_neg hany, if_neg hany, List.map_append]
    rfl

theorem dictLookup_dictBuild_aux {α : Type} (kvs : List (String × α)) :
    ∀ (d : List (String × α)) (k : String),
      dictLookup (kvs.foldl (fun d kv => dictInsert d kv.1 kv.2) d) k
        = (dictLookup kvs.reverse k).or (dictLookup d k) := by
  induction kvs with
  | nil => intro d k; simp [dictLookup_nil, Option.or]
  | cons kv kvs ih =>
    intro d k
    rw [List.foldl_cons, ih, List.reverse_cons, dictLookup_append,
      dictLookup_dictInsert]
    obtain ⟨k₀, v₀⟩ := kv
    rw [dictLookup_cons]
    cases dictLookup kvs.reverse k <;> by_cases h : k = k₀
    · simp [h, dictLookup_nil, Option.or]
    · have hk : k₀ ≠ k := fun hh => h hh.symm
      simp [h, hk, dictLookup_nil, Option.or]
    · simp [h, dictLookup_nil, Option.or]
    · have hk : k₀ ≠ k := fun hh => h hh.symm
      simp [h, hk, dictLookup_nil, Option.or]

/-- Lookup in a dict built by comprehension yields the value of the LAST
pair carrying the key (later assignments overwrite earlier ones). -/
theorem dictLookup_dictBuild {α : Type} (kvs : List (String × α)) (k : String) :
    dictLookup (dictBuild kvs) k = dictLookup kvs.reverse k := by
  rw [dictBuild, dictLookup_dictBuild_aux, dictLookup_nil]
  cases dictLookup kvs.reverse k <;> simp [Option.or]

theorem dictBuild_eq_self_aux {α : Type} (kvs : List (String × α)) :
    ∀ (d : List (String × α)),
      (d.map Prod.fst ++ kvs.map Prod.fst).Nodup →
      kvs.foldl (fun d kv => dictInsert d kv.1 kv.2) d = d ++ kvs := by
  induction kvs with
  | nil => intro d _; simp
  | cons kv kvs ih =>
    intro d hnd
    obtain ⟨k₀, v₀⟩ := kv
    have hnotin : ¬ d.any (fun p => p.1 == k₀) := by
      intro hany
      rw [List.any_eq_true] at hany
      obtain ⟨p, hp, hpk⟩ := hany
      rw [beq_iff_eq] at hpk
      have h₁ : k₀ ∈ d.map Prod.fst := List.mem_map.mpr ⟨p, hp, hpk⟩
      have h₂ := (List.nodup_append.mp hnd).2.2
      exact h₂ h₁ (by simp)
    have hins : dictInsert d k₀ v₀ = d ++ [(k₀, v₀)] := by
      unfold dictInsert
      rw [if_neg hnotin]
    rw [List.foldl_cons, hins, ih (d ++ [(k₀, v₀)]) ?_, List.append_assoc]
    · rfl
    · simp only [List.map_append, List.map_cons, List.map_nil] at hnd ⊢
      simpa [List.append_assoc] using hnd

/-! ### Lemmas about the feature/code mapping -/

theorem featureCodeIndexPairs_keys (fs : List Feature) :
    ∀ n, (featureCodeIndexPairs fs n).map Prod.fst
      = fs.map (fun f => f.properties.code) := by
  induction fs with
  | nil => intro n; rfl
  | cons f rest ih =>
    intro n
    simp [featureCodeIndexPairs, ih]

theorem dictLookup_featureCodeIndexPairs (fs : List Feature) :
    ∀ (n : Nat) (k : String),
      dictLookup (featureCodeIndexPairs fs n) k
        = (firstFeatureIdx fs k).map (fun i => i + n) := by
  induction fs with
  | nil => intro n k; rfl
  | cons f rest ih =>
    intro n k
    rw [featureCodeIndexPairs, dictLookup_cons, firstFeatureIdx]
    by_cases h : f.properties.code = k
    · simp [h]
    · rw [if_neg h, if_neg h, ih (n + 1) k]
      cases firstFeatureIdx rest k with
      | none => rfl
      | some i => simp [Nat.add_assoc, Nat.add_comm 1 n]

theorem dictLookup_featureCodeIndexPairs_reverse (fs : List Feature) :
    ∀ (n : Nat) (k : String),
      dictLookup (featureCodeIndexPairs fs n).reverse k
        = (lastFeatureIdx fs k).map (fun i => i + n) := by
  induction fs with
  | nil => intro n k; rfl
  | cons f rest ih =>
    intro n k
    rw [featureCodeIndexPairs, List.reverse_cons, dictLookup_append, ih (n + 1) k,
      lastFeatureIdx]
    cases lastFeatureIdx rest k with
    | some i => simp [Option.or, Nat.add_assoc, Nat.add_comm 1 n]
    | none =>
      by_cases h : f.properties.code = k
      · simp [h, dictLookup_cons, dictLookup_nil, Option.or]
      · simp [h, dictLookup_cons, dictLookup_nil, Option.or]

theorem lastFeatureIdx_none_iff (fs : List Feature) (k : String) :
    lastFeatureIdx fs k = none
      ↔ k ∉ fs.map (fun f => f.properties.code) := by
  induction fs with
  | nil => simp [lastFeatureIdx]
  | cons f rest ih =>
    rw [lastFeatureIdx]
    cases hr : lastFeatureIdx rest k with
    | some i =>
      simp only [List.map_cons, List.mem_cons]
      constructor
      · intro hh; exact absurd hh (by simp)
      · intro hh
        exact absurd (ih.mpr (fun hm => hh (Or.inr hm))) (by simp [hr])
    | none =>
      by_cases h : f.properties.code = k
      · simp [h]
      · have hk : ¬ k = f.properties.code := fun hh => h hh.symm
        simp [h, hk, ih.mp hr]

theorem lastFeatureWith_none (fs : List Feature) (k : String)
    (h : lastFeatureIdx fs k = none) : lastFeatureWith fs k = none := by
  induction fs with
  | nil => rfl
  | cons f rest ih =>
    rw [lastFeatureIdx] at h
    cases hr : lastFeatureIdx rest k with
    | some i => rw [hr] at h; exact absurd h (by simp)
    | none =>
      rw [hr] at h
      by_cases hc : f.properties.code = k
      · rw [if_pos hc] at h; exact absurd h (by simp)
      · rw [lastFeatureWith, List.reverse_cons, List.find?_append]
        have h1 : lastFeatureWith rest k = none := ih hr
        rw [lastFeatureWith] at h1
        rw [h1]
        simp [List.find?, beq_eq_false_iff_ne.mpr hc, Option.or]

theorem lastFeatureIdx_spec (fs : List Feature) (k : String) (i : Nat)
    (h : lastFeatureIdx fs k = some i) :
    i < fs.length ∧ fs[i]? = lastFeatureWith fs k := by
  induction fs generalizing i with
  | nil => exact absurd h (by simp [lastFeatureIdx])
  | cons f rest ih =>
    rw [lastFeatureIdx] at h
    cases hr : lastFeatureIdx rest k with
    | some j =>
      rw [hr] at h
      obtain rfl : j + 1 = i := by simpa using h
      obtain ⟨hlt, hget⟩ := ih j hr
      refine ⟨by simpa using Nat.succ_lt_succ hlt, ?_⟩
      obtain ⟨g, hg⟩ : ∃ g, lastFeatureWith rest k = some g := by
        cases hw : lastFeatureWith rest k with
        | some g => exact ⟨g, rfl⟩
        | none =>
          rw [hw] at hget
          exact absurd hlt (Nat.not_lt.mpr (List.getElem?_eq_none_iff.mp hget))
      have hcons : (f :: rest)[j + 1]? = rest[j]? := by simp
      rw [hcons, hget, hg, lastFeatureWith, List.reverse_cons, List.find?_append]
      rw [lastFeatureWith] at hg
      rw [hg]
      simp [Option.or]
    | none =>
      rw [hr] at h
      by_cases hc : f.properties.code = k
      · rw [if_pos hc] at h
        obtain rfl : 0 = i := by simpa using h
        refine ⟨by simp, ?_⟩
        rw [lastFeatureWith, List.reverse_cons, List.find?_append]
        have h1 : lastFeatureWith rest k = none := lastFeatureWith_none rest k hr
        rw [lastFeatureWith] at h1
        rw [h1]
        simp [List.find?, hc, Option.or]
      · rw [if_neg hc] at h
        exact absurd h (by simp)

theorem firstFeatureIdx_mem (fs : List Feature) (f : Feature)
    (hmem : f ∈ fs)
    (hnd : (fs.map (fun g => g.properties.code)).Nodup) :
    ∃ i, firstFeatureIdx fs f.properties.code = some i ∧ fs[i]? = some f := by
  induction fs with
  | nil => exact absurd hmem (by simp)
  | cons g rest ih =>
    rw [List.map_cons, List.nodup_cons] at hnd
    rcases List.mem_cons.mp hmem with hf | hf
    · subst hf
      exact ⟨0, by simp [firstFeatureIdx], by simp⟩
    · have hne : g.properties.code ≠ f.properties.code := by
        intro hh
        exact hnd.1 (by
          rw [hh]
          exact List.mem_map.mpr ⟨f, hf, rfl⟩)
      obtain ⟨i, hi, hget⟩ := ih hf hnd.2
      refine ⟨i + 1, ?_, by simpa using hget⟩
      rw [firstFeatureIdx, if_neg hne, hi]
      rfl

theorem dictBuild_featureCodeIndexPairs_nodup (fs : List Feature)
    (hnd : (fs.map (fun g => g.properties.code)).Nodup) :
    dictBuild (featureCodeIndexPairs fs 0)
      = featureCodeIndexPairs fs 0 := by
  have := dictBuild_eq_self_aux (featureCodeIndexPairs fs 0) []
  rw [dictBuild]
  rw [this]
  · simp
  · rw [List.map_nil, List.nil_append, featureCodeIndexPairs_keys]
    exact hnd

theorem featureCodeIndexPairs_filterMap (fs : List Feature) :
    ∀ pre : List Feature,
      (featureCodeIndexPairs fs pre.length).filterMap
          (fun p => (pre ++ fs)[p.2]?) = fs := by
  induction fs with
  | nil => intro pre; rfl
  | cons f rest ih =>
    intro pre
    rw [featureCodeIndexPairs, List.filterMap_cons]
    have hhead : (pre ++ f :: rest)[pre.length]? = some f := by
      rw [List.getElem?_append_right (Nat.le_refl pre.length)]
      simp
    rw [hhead]
    have hlen : pre.length + 1 = (pre ++ [f]).length := by simp
    have happ : pre ++ f :: rest = (pre ++ [f]) ++ rest := by simp
    rw [hlen, happ, ih (pre ++ [f])]

/-- Membership in a comprehension-built dict comes from the generating pairs. -/
theorem mem_dictBuild {α : Type} (kvs : List (String × α)) :
    ∀ (d : List (String × α)) (p : String × α),
      p ∈ kvs.foldl (fun d kv => dictInsert d kv.1 kv.2) d → p ∈ d ∨ p ∈ kvs := by
  induction kvs with
  | nil => intro d p hp; exact Or.inl hp
  | cons kv kvs ih =>
    intro d p hp
    rw [List.foldl_cons] at hp
    rcases ih (dictInsert d kv.1 kv.2) p hp with hmem | hmem
    · unfold dictInsert at hmem
      by_cases hany : d.any (fun q => q.1 == kv.1)
      · rw [if_pos hany] at hmem
        obtain ⟨q, hq, hqe⟩ := List.mem_map.mp hmem
        by_cases hqk : q.1 = kv.1
        · right
          rw [List.mem_cons]
          left
          rw [← hqe]
          simp [hqk]
        · left
          rw [← hqe]
          simp [hqk]
          exact hq
      · rw [if_neg hany] at hmem
        rcases List.mem_append.mp hmem with hmem | hmem
        · exact Or.inl hmem
        · right
          rw [List.mem_cons]
          left
          simpa using hmem
    · exact Or.inr (List.mem_cons_of_mem kv hmem)

theorem featureCodeIndexPairs_snd_lt (fs : List Feature) :
    ∀ (n : Nat) (p : String × Nat),
      p ∈ featureCodeIndexPairs fs n → p.2 < n + fs.length := by
  induction fs with
  | nil => intro n p hp; exact absurd hp (by simp [featureCodeIndexPairs])
  | cons f rest ih =>
    intro n p hp
    rw [featureCodeIndexPairs, List.mem_cons] at hp
    rcases hp with hp | hp
    · rw [hp]
      simp
    · have := ih (n + 1) p hp
      simpa [Nat.add_assoc, Nat.add_comm 1 rest.length] using this

theorem filterMap_getElem_length {α : Type} (m : List (String × Nat))
    (heap : List α) (hbound : ∀ p ∈ m, p.2 < heap.length) :
    (m.filterMap (fun p => heap[p.2]?)).length = m.length := by
  induction m with
  | nil => rfl
  | cons p m ih =>
    have hp := hbound p (by simp)
    obtain ⟨a, ha⟩ : ∃ a, heap[p.2]? = some a := by
      cases hh : heap[p.2]? with
      | some a => exact ⟨a, rfl⟩
      | none => exact absurd hp (Nat.not_lt.mpr (List.getElem?_eq_none_iff.mp hh))
    rw [List.filterMap_cons, ha, List.length_cons, ih (fun q hq => hbound q (by simp [hq]))]
    rfl

/-! ### Key dedup (dict keys keep first position, one entry per key) -/

theorem dictAny_iff_mem {α : Type} (d : List (String × α)) (k : String) :
    d.any (fun p => p.1 == k) = true ↔ k ∈ d.map Prod.fst := by
  rw [List.any_eq_true]
  constructor
  · rintro ⟨p, hp, hpk⟩
    exact List.mem_map.mpr ⟨p, hp, beq_iff_eq.mp hpk⟩
  · intro hm
    obtain ⟨p, hp, hpk⟩ := List.mem_map.mp hm
    exact ⟨p, hp, beq_iff_eq.mpr hpk⟩

theorem dictKeys_foldl {α : Type} (kvs : List (String × α)) :
    ∀ d : List (String × α),
      ((kvs.foldl (fun d kv => dictInsert d kv.1 kv.2) d).map Prod.fst)
        = (kvs.map Prod.fst).foldl insKey (d.map Prod.fst) := by
  induction kvs with
  | nil => intro d; rfl
  | cons kv kvs ih =>
    intro d
    rw [List.foldl_cons, ih, List.map_cons, List.foldl_cons]
    have hkeys : (dictInsert d kv.1 kv.2).map Prod.fst
        = insKey (d.map Prod.fst) kv.1 := by
      rw [dictKeys_dictInsert, insKey]
      by_cases h : kv.1 ∈ d.map Prod.fst
      · rw [if_pos ((dictAny_iff_mem d kv.1).mpr h), if_pos h]
      · rw [if_neg (fun ha => h ((dictAny_iff_mem d kv.1).mp ha)), if_neg h]
    rw [hkeys]

theorem dictKeys_dictBuild {α : Type} (kvs : List (String × α)) :
    (dictBuild kvs).map Prod.fst = dedupKeys (kvs.map Prod.fst) := by
  rw [dictBuild, dictKeys_foldl, dedupKeys]
  rfl

theorem mem_insKey (ks : List String) (k a : String) :
    a ∈ insKey ks k ↔ a ∈ ks ∨ a = k := by
  rw [insKey]
  by_cases h : k ∈ ks
  · rw [if_pos h]
    constructor
    · exact Or.inl
    · rintro (ha | rfl)
      · exact ha
      · exact h
  · rw [if_neg h]
    simp

theorem insKey_nodup (ks : List String) (k : String) (h : ks.Nodup) :
    (insKey ks k).Nodup := by
  rw [insKey]
  by_cases hk : k ∈ ks
  · rw [if_pos hk]; exact h
  · rw [if_neg hk]
    exact List.Nodup.append h (List.nodup_singleton k) (by simpa using hk)

theorem foldl_insKey_nodup (ks : List String) :
    ∀ acc, acc.Nodup → (ks.foldl insKey acc).Nodup := by
  induction ks with
  | nil => intro acc h; exact h
  | cons k ks ih =>
    intro acc h
    rw [List.foldl_cons]
    exact ih (insKey acc k) (insKey_nodup acc k h)

theorem mem_foldl_insKey (ks : List String) :
    ∀ acc a, a ∈ ks.foldl insKey acc ↔ a ∈ acc ∨ a ∈ ks := by
  induction ks with
  | nil => intro acc a; simp
  | cons k ks ih =>
    intro acc a
    rw [List.foldl_cons, ih, mem_insKey]
    constructor
    · rintro ((ha | rfl) | ha)
      · exact Or.inl ha
      · exact Or.inr (by simp)
      · exact Or.inr (by simp [ha])
    · rintro (ha | ha)
      · exact Or.inl (Or.inl ha)
      · rcases List.mem_cons.mp ha with rfl | ha
        · exact Or.inl (Or.inr rfl)
        · exact Or.inr ha

theorem dedupKeys_nodup (ks : List String) : (dedupKeys ks).Nodup :=
  foldl_insKey_nodup ks [] List.nodup_nil

theorem mem_dedupKeys (ks : List String) (a : String) :
    a ∈ dedupKeys ks ↔ a ∈ ks := by
  rw [dedupKeys, mem_foldl_insKey]
  simp

/-- A key list with a repeated key strictly shrinks under dedup. -/
theorem dedupKeys_length_lt (ks : List String) (h : ¬ ks.Nodup) :
    (dedupKeys ks).length < ks.length := by
  have h1 : (dedupKeys ks).toFinset = ks.toFinset := by
    ext a
    simp [List.mem_toFinset, mem_dedupKeys]
  have h2 : (dedupKeys ks).length = ks.dedup.length := by
    rw [← List.toFinset_card_of_nodup (dedupKeys_nodup ks), h1, List.card_toFinset]
  rw [h2]
  have hs := List.dedup_sublist ks
  refine Nat.lt_of_le_of_ne hs.length_le (fun heq => ?_)
  exact h (List.dedup_eq_self.mp (hs.eq_of_length heq))

/-! ### Claim C1: `_search` query-parameter merge -/

/-- C1, counterexample.  The claim states that a caller-supplied value for
any key, including `format`, overrides the base default, so that with
`{format: csv, still: json}` the merge is `{format: csv, still: json}`.
In the code `api_params` is APPENDED to the `ChainMap`'s map list and
`ChainMap` gives earlier maps precedence, so the value sent for `format`
is the base `"json"`, not the caller's `"csv"`. -/
theorem searchParams_caller_format_does_not_override :
    searchParamsLookup (some [("format", "csv"), ("still", "json")]) "format"
      = some "json"
    ∧ searchParamsLookup (some [("format", "csv"), ("still", "json")]) "format"
      ≠ some "csv"
    ∧ searchParamsItems (some [("format", "csv"), ("still", "json")])
      ≠ [("format", "csv"), ("still", "json")] := by
  refine ⟨by decide, by decide, by decide⟩

/-- C1, amended.  For every call to `_search`, the query parameters sent
are the merge of the base set `{format: json}` with the caller-supplied
parameters where the BASE value wins for any key both sides supply
(caller parameters are appended as a fallback layer of the `ChainMap`,
and earlier maps shadow later ones): with no extra parameters exactly
`{format: json}` is sent; with `{add: me}` the merge is
`{format: json, add: me}`; with `{format: csv, still: json}` the merge is
`{format: json, still: json}`. -/
theorem searchParams_merge_base_wins :
    (∀ (a : Params) (k : String),
        searchParamsLookup (some a) k
          = if k = "format" then some "json" else dictLookup a k)
    ∧ (∀ k : String,
        searchParamsLookup none k
          = if k = "format" then some "json" else none)
    ∧ searchParamsItems none = [("format", "json")]
    ∧ searchParamsItems (some [("add", "me")])
        = [("add", "me"), ("format", "json")]
    ∧ searchParamsItems (some [("format", "csv"), ("still", "json")])
        = [("format", "json"), ("still", "json")] := by
  refine ⟨?_, ?_, by decide, by decide, by decide⟩
  · intro a k
    rw [searchParamsLookup, chainMaps]
    by_cases he : a.isEmpty
    · rw [if_pos he, List.isEmpty_iff.mp he]
      by_cases h : k = "format"
      · subst h
        simp [chainMapLookup, dictLookup_cons]
      · have hk : ¬ ("format" : String) = k := fun hh => h hh.symm
        simp [chainMapLookup, dictLookup_cons, dictLookup_nil, h, hk]
    · rw [if_neg he]
      by_cases h : k = "format"
      · subst h
        simp [chainMapLookup, dictLookup_cons]
      · have hk : ¬ ("format" : String) = k := fun hh => h hh.symm
        simp only [chainMapLookup, dictLookup_cons, dictLookup_nil, if_neg hk]
        cases dictLookup a k <;> simp [h]
  · intro k
    by_cases h : k = "format"
    · subst h
      simp [searchParamsLookup, chainMaps, chainMapLookup, dictLookup_cons]
    · have hk : ¬ ("format" : String) = k := fun hh => h hh.symm
      simp [searchParamsLookup, chainMaps, chainMapLookup, dictLookup_cons,
        dictLookup_nil, h, hk]

/-! ### Claim C2: deep copy on construction -/

/-- C2.  The claim states that constructing a `LocationBoundaries` deep
copies the input so that ANY later mutation of the source JSON leaves
every observable (crs, iterated features, every lookup) unchanged.  The
constructor does deep-copy `feature_collection`, but it builds
`_code_to_feature_mapping` from the ORIGINAL argument's feature objects
(`model.py` line 119 iterates `feature_collection["features"]`, not
`self.feature_collection["features"]`), so an in-place mutation of a
source feature object (here: renaming `"NICE PLACE"` to
`"MUTATED PLACE"`) changes what lookup and iteration return; only the
crs (read from the deep copy) is insulated. -/
theorem locationBoundaries_alias_mutation_observable :
    (LocationBoundaries.init fcNicePlace).fromCode [featureNicePlaceMutated] "DEADBEEF"
      = some { type := "FeatureCollection", crs := fcNicePlace.crs,
               features := [featureNicePlaceMutated] }
    ∧ (LocationBoundaries.init fcNicePlace).fromCode [featureNicePlaceMutated] "DEADBEEF"
      ≠ (LocationBoundaries.init fcNicePlace).fromCode fcNicePlace.features "DEADBEEF"
    ∧ (LocationBoundaries.init fcNicePlace).featuresOf [featureNicePlaceMutated]
      = [featureNicePlaceMutated]
    ∧ (LocationBoundaries.init fcNicePlace).featuresOf [featureNicePlaceMutated]
      ≠ (LocationBoundaries.init fcNicePlace).featuresOf fcNicePlace.features
    ∧ (LocationBoundaries.init fcNicePlace).crsOf = "ABCD:1234" := by
  refine ⟨by decide, by decide, by decide, by decide, by decide⟩

/-! ### Claim C6: frozen records reject mutation -/

/-- C6.  For every constructed `LocationSpend` and every constructed
`DrugDetail`, any attempted assignment to any field (indeed any attribute
name, with any value) fails with `FrozenInstanceError`; since the
assignment only ever produces the error, the record itself is unchanged. -/
theorem frozen_records_reject_mutation :
    (∀ (β : Type) (r : LocationSpend) (name : String) (v : β),
        LocationSpend.setattr r name v
          = Except.error (PyFrozenInstanceError.cannotAssignToField name))
    ∧ (∀ (β : Type) (d : DrugDetail) (name : String) (v : β),
        DrugDetail.setattr d name v
          = Except.error (PyFrozenInstanceError.cannotAssignToField name)) :=
  ⟨fun _ _ _ _ => rfl, fun _ _ _ _ => rfl⟩

/-! ### Claim C7: total-spending query is unsupported -/

/-- C7.  For every input, `query_spending_by_code` fails unconditionally
with `NotImplementedError`, issuing no GET request and producing no
result. -/
theorem query_spending_by_code_unsupported :
    ∀ api_params : Option Params,
      query_spending_by_code api_params
        = ([], Except.error PyNotImplementedError.notImplementedError) :=
  fun _ => rfl

/-! ### Claim C8: malformed date text -/

/-- C8, counterexample.  The claim states that for EVERY raw spend object
whose date text is not of the form `YYYY-MM-DD` denoting a valid calendar
date, construction fails.  The text `"2022-1-1"` is not of that form (the
month and day are not two digits), yet `strptime`'s `%m`/`%d` accept one-
or two-digit fields and `from_dict` succeeds. -/
theorem from_dict_accepts_nonpadded_date :
    claimFormYYYYMMDD "2022-1-1" = false
    ∧ LocationSpend.from_dict
        { items := 600, quantity := 10000, actual_cost := 12345,
          date := "2022-1-1", row_id := "ABC", row_name := "ANOTHER CCG" }
      = Except.ok
        { items := 600, quantity := 10000, actual_cost := 12345,
          date := ⟨2022, 1, 1⟩, row_id := "ABC", row_name := "ANOTHER CCG" } :=
  ⟨by decide, rfl⟩

/-- C8, amended.  For every raw spend object whose date text is rejected
by the `%Y-%m-%d` parse (four-digit year, one- or two-digit month and
day, full match, valid calendar date), constructing a `SpendRecord` fails
with a `ValueError` and no record, partial or otherwise, is produced;
moreover every text that IS of the strict form `YYYY-MM-DD` denoting a
valid calendar date is accepted, so the original claim's accepted set is
only widened (by the non-zero-padded variants), never narrowed. -/
theorem from_dict_malformed_date_fails :
    (∀ raw : SpendingBySICBL, parseDateYMD raw.date = none →
        LocationSpend.from_dict raw = Except.error PyValueError.valueError)
    ∧ (∀ s : String, claimFormYYYYMMDD s = true → (parseDateYMD s).isSome = true) := by
  constructor
  · intro raw h
    rw [LocationSpend.from_dict, h]
  · intro s h
    rw [claimFormYYYYMMDD] at h
    rw [parseDateYMD]
    rcases hsp : splitOnDash s.data with _ | ⟨ys, tl⟩
    · rw [hsp] at h
      exact absurd h (by simp)
    rcases tl with _ | ⟨ms, tl2⟩
    · rw [hsp] at h
      exact absurd h (by simp)
    rcases tl2 with _ | ⟨ds, tl3⟩
    · rw [hsp] at h
      exact absurd h (by simp)
    rcases tl3 with _ | ⟨x, tl4⟩
    swap
    · rw [hsp] at h
      exact absurd h (by simp)
    rw [hsp] at h
    simp only [Bool.and_eq_true, beq_iff_eq, decide_eq_true_eq] at h
    obtain ⟨⟨⟨⟨⟨⟨hy4, hyd⟩, hm2⟩, hmd⟩, hd2⟩, hdd⟩, ⟨⟨⟨hy1, hm1⟩, hm12⟩, hd1⟩, hdmax⟩ := h
    simp [hy4, hyd, hm2, hmd, hd2, hdd, hy1, hm1, hm12, hd1, hdmax]

/-- C8, witness for the amended theorem: `"2022-13-01"` (month 13) is
rejected and yields `ValueError`; `"2022-01-31"` is of the strict form
and parses. -/
theorem from_dict_malformed_date_fails_witness :
    LocationSpend.from_dict
      { items := 1, quantity := 1, actual_cost := 1, date := "2022-13-01",
        row_id := "A", row_name := "B" }
      = Except.error PyValueError.valueError
    ∧ (parseDateYMD "2022-01-31").isSome = true :=
  ⟨from_dict_malformed_date_fails.1
      { items := 1, quantity := 1, actual_cost := 1, date := "2022-13-01",
        row_id := "A", row_name := "B" } (by decide),
    from_dict_malformed_date_fails.2 "2022-01-31" (by decide)⟩

/-! ### Claim C3: RateLimiter invocation semantics -/

/-- C3.  Every invocation first resets the counter to zero and restarts
the window exactly when at least `period` seconds have elapsed since the
window start (`period - elapsed <= 0` iff `elapsed >= period`), then
increments the counter; the wrapped operation's result is returned iff
the post-increment counter does not exceed `calls`, and otherwise `none`
is produced rather than an error; and with `calls=1, period=10` ten rapid
invocations (all at the construction instant) execute exactly one call. -/
theorem rateLimiter_invoke_spec :
    (∀ (α : Type) (s : RateLimiter) (t1 t2 : ℚ) (f : α),
      (RateLimiter.invoke s t1 t2 f).1.number_of_calls
          = (if s.period ≤ t1 - s.last_reset then 0 else s.number_of_calls) + 1
      ∧ (RateLimiter.invoke s t1 t2 f).1.last_reset
          = (if s.period ≤ t1 - s.last_reset then t2 else s.last_reset)
      ∧ (RateLimiter.invoke s t1 t2 f).1.calls = s.calls
      ∧ (RateLimiter.invoke s t1 t2 f).1.period = s.period
      ∧ (RateLimiter.invoke s t1 t2 f).2
          = (if (if s.period ≤ t1 - s.last_reset then 0 else s.number_of_calls) + 1
                ≤ s.calls
             then some f else none))
    ∧ (RateLimiter.run (RateLimiter.init 1 10 0) (List.replicate 10 (0, 0))).2 = 1 := by
  constructor
  · intro α s t1 t2 f
    have hiff : (s.period - (t1 - s.last_reset) ≤ 0) ↔ s.period ≤ t1 - s.last_reset :=
      sub_nonpos
    by_cases h : s.period ≤ t1 - s.last_reset
    · by_cases hc : s.calls < 0 + 1
      · have hc' : ¬ (0 + 1 ≤ s.calls) := by omega
        simp [RateLimiter.invoke, hiff.mpr h, h, hc, hc']
      · have hc' : 0 + 1 ≤ s.calls := by omega
        simp [RateLimiter.invoke, hiff.mpr h, h, hc, hc']
    · have hr : ¬ (s.period - (t1 - s.last_reset) ≤ 0) := fun hh => h (hiff.mp hh)
      by_cases hc : s.calls < s.number_of_calls + 1
      · have hc' : ¬ (s.number_of_calls + 1 ≤ s.calls) := by omega
        simp [RateLimiter.invoke, hr, h, hc, hc']
      · have hc' : s.number_of_calls + 1 ≤ s.calls := by omega
        simp [RateLimiter.invoke, hr, h, hc, hc']
  · norm_num [RateLimiter.run, RateLimiter.invoke, RateLimiter.init, List.replicate]

/-! ### Claim C10: non-positive period disables throttling -/

/-- C10.  The constructor stores the period argument unvalidated (any
value, including zero and negative values, is kept as given) while
clamping `calls` to at least 1; consequently, for every limiter state
whose period is non-positive, every invocation (at any instant not
before the window start) satisfies the reset condition, so the counter
is reset before being incremented to 1 and the wrapped operation
executes — no call is ever throttled. -/
theorem rateLimiter_nonpositive_period_never_throttles :
    (∀ (calls : Int) (period now : ℚ),
        (RateLimiter.init calls period now).period = period
        ∧ (RateLimiter.init calls period now).number_of_calls = 0
        ∧ (RateLimiter.init calls period now).last_reset = now
        ∧ 1 ≤ (RateLimiter.init calls period now).calls)
    ∧ (∀ (α : Type) (s : RateLimiter) (t1 t2 : ℚ) (f : α),
        s.period ≤ 0 → s.last_reset ≤ t1 → 1 ≤ s.calls →
        (RateLimiter.invoke s t1 t2 f).2 = some f
        ∧ (RateLimiter.invoke s t1 t2 f).1.number_of_calls = 1
        ∧ (RateLimiter.invoke s t1 t2 f).1.last_reset = t2) := by
  constructor
  · intro calls period now
    refine ⟨rfl, rfl, rfl, ?_⟩
    have h1 : (1 : Int) ≤ max 1 calls := le_max_left 1 calls
    have h2 := Int.toNat_le_toNat h1
    simp only [RateLimiter.init, Int.toNat_one] at h2 ⊢
    exact h2
  · intro α s t1 t2 f hper hmono hcalls
    have hreset : s.period - (t1 - s.last_reset) ≤ 0 := by
      have : (0 : ℚ) ≤ t1 - s.last_reset := by linarith
      linarith
    rw [RateLimiter.invoke, if_pos hreset]
    have hexec : ¬ s.calls < 0 + 1 := by omega
    rw [if_neg hexec]
    exact ⟨rfl, rfl, rfl⟩

/-- C10, witness: a limiter built with `calls=1, period=-1` at instant 0,
invoked at instant 5, executes the wrapped operation with counter 1. -/
theorem rateLimiter_nonpositive_period_never_throttles_witness :
    (RateLimiter.invoke (RateLimiter.init 1 (-1) 0) 5 5 (37 : Nat)).2 = some 37
    ∧ (RateLimiter.invoke (RateLimiter.init 1 (-1) 0) 5 5 (37 : Nat)).1.number_of_calls = 1 := by
  have h := rateLimiter_nonpositive_period_never_throttles.2 Nat
    (RateLimiter.init 1 (-1) 0) 5 5 37
    (by norm_num [RateLimiter.init])
    (by norm_num [RateLimiter.init])
    (by norm_num [RateLimiter.init])
  exact ⟨h.1, h.2.1⟩

/-! ### Claim C4: collection with pairwise distinct codes -/

/-- C4.  For every input collection whose feature codes are pairwise
distinct, the constructed `LocationBoundaries` (observed at construction
time, before any mutation) exposes exactly the input features via
iteration, in insertion order; indexing by each present code returns a
`FeatureCollection` holding exactly the one feature bearing that code
together with the original `type` and `crs`; and indexing by an absent
code produces the `KeyError` outcome (`none`), never an empty
sub-collection. -/
theorem locationBoundaries_distinct_codes_spec (fc : FeatureCollection)
    (hnd : (fc.features.map (fun f => f.properties.code)).Nodup) :
    (LocationBoundaries.init fc).featuresOf fc.features = fc.features
    ∧ (∀ f ∈ fc.features,
        (LocationBoundaries.init fc).fromCode fc.features f.properties.code
          = some { type := fc.type, crs := fc.crs, features := [f] })
    ∧ (∀ c : String, c ∉ fc.features.map (fun f => f.properties.code) →
        (LocationBoundaries.init fc).fromCode fc.features c = none) := by
  have hmap : (LocationBoundaries.init fc).code_to_feature_mapping
      = featureCodeIndexPairs fc.features 0 :=
    dictBuild_featureCodeIndexPairs_nodup fc.features hnd
  refine ⟨?_, ?_, ?_⟩
  · rw [LocationBoundaries.featuresOf, hmap]
    have h := featureCodeIndexPairs_filterMap fc.features []
    simpa using h
  · intro f hf
    rw [LocationBoundaries.fromCode, hmap, dictLookup_featureCodeIndexPairs]
    obtain ⟨i, hi, hget⟩ := firstFeatureIdx_mem fc.features f hf hnd
    rw [hi]
    simp only [Option.map_some', Option.some_bind, Nat.add_zero]
    rw [hget]
    simp [LocationBoundaries.init]
  · intro c hc
    rw [LocationBoundaries.fromCode,
      show (LocationBoundaries.init fc).code_to_feature_mapping
        = dictBuild (featureCodeIndexPairs fc.features 0) from rfl,
      dictLookup_dictBuild, dictLookup_featureCodeIndexPairs_reverse,
      (lastFeatureIdx_none_iff fc.features c).mpr hc]
    rfl

/-- C4, witness: the two-feature collection with codes `"DEADBEEF"` and
`"BADF00D"`. -/
theorem locationBoundaries_distinct_codes_spec_witness :
    (LocationBoundaries.init fcTwoDistinct).featuresOf fcTwoDistinct.features
      = fcTwoDistinct.features
    ∧ (LocationBoundaries.init fcTwoDistinct).fromCode fcTwoDistinct.features
        featureOtherPlace.properties.code
      = some { type := fcTwoDistinct.type, crs := fcTwoDistinct.crs,
               features := [featureOtherPlace] }
    ∧ (LocationBoundaries.init fcTwoDistinct).fromCode fcTwoDistinct.features "ZZZ"
      = none := by
  have h := locationBoundaries_distinct_codes_spec fcTwoDistinct (by decide)
  exact ⟨h.1, h.2.1 featureOtherPlace (by decide), h.2.2 "ZZZ" (by decide)⟩

/-! ### Claim C9: duplicate codes keep the last feature, first position -/

/-- C9.  If two or more features share a code, the built mapping retains
one entry per distinct code, so iteration yields strictly fewer features
than the input count; and indexing by any present code (in particular a
duplicated one) returns the LAST feature in input order bearing that
code (a later `dict` assignment overwrites the value of an earlier one). -/
theorem locationBoundaries_duplicate_codes (fc : FeatureCollection)
    (hdup : ¬ (fc.features.map (fun f => f.properties.code)).Nodup) :
    ((LocationBoundaries.init fc).featuresOf fc.features).length
      < fc.features.length
    ∧ (∀ c : String, c ∈ fc.features.map (fun f => f.properties.code) →
        (LocationBoundaries.init fc).fromCode fc.features c
          = (lastFeatureWith fc.features c).map
              (fun f => { type := fc.type, crs := fc.crs, features := [f] })) := by
  constructor
  · rw [LocationBoundaries.featuresOf]
    have hbound : ∀ p ∈ (LocationBoundaries.init fc).code_to_feature_mapping,
        p.2 < fc.features.length := by
      intro p hp
      rcases mem_dictBuild (featureCodeIndexPairs fc.features 0) [] p hp with hm | hm
      · exact absurd hm (by simp)
      · have h := featureCodeIndexPairs_snd_lt fc.features 0 p hm
        simpa using h
    rw [filterMap_getElem_length _ fc.features hbound]
    have hkeys : (LocationBoundaries.init fc).code_to_feature_mapping.map Prod.fst
        = dedupKeys (fc.features.map (fun f => f.properties.code)) := by
      rw [show (LocationBoundaries.init fc).code_to_feature_mapping
          = dictBuild (featureCodeIndexPairs fc.features 0) from rfl,
        dictKeys_dictBuild, featureCodeIndexPairs_keys]
    have hlen : (LocationBoundaries.init fc).code_to_feature_mapping.length
        = (dedupKeys (fc.features.map (fun f => f.properties.code))).length := by
      rw [← hkeys, List.length_map]
    rw [hlen]
    have hlt := dedupKeys_length_lt (fc.features.map (fun f => f.properties.code)) hdup
    rwa [List.length_map] at hlt
  · intro c hcmem
    rw [LocationBoundaries.fromCode,
      show (LocationBoundaries.init fc).code_to_feature_mapping
        = dictBuild (featureCodeIndexPairs fc.features 0) from rfl,
      dictLookup_dictBuild, dictLookup_featureCodeIndexPairs_reverse]
    cases hl : lastFeatureIdx fc.features c with
    | none =>
      exact absurd hcmem ((lastFeatureIdx_none_iff fc.features c).mp hl)
    | some i =>
      obtain ⟨hlt, hget⟩ := lastFeatureIdx_spec fc.features c i hl
      obtain ⟨g, hg⟩ : ∃ g, lastFeatureWith fc.features c = some g := by
        cases hw : lastFeatureWith fc.features c with
        | some g => exact ⟨g, rfl⟩
        | none =>
          rw [hw] at hget
          exact absurd hlt (Nat.not_lt.mpr (List.getElem?_eq_none_iff.mp hget))
      rw [hg] at hget
      simp only [Option.map_some', Option.some_bind, Nat.add_zero]
      rw [hget, hg]
      simp [LocationBoundaries.init]

/-- C9, witness: a three-feature collection where the first and the third
feature share the code `"DEADBEEF"`; iteration yields two features and
the duplicated code maps to the third (mutated-name) feature. -/
theorem locationBoundaries_duplicate_codes_witness :
    ((LocationBoundaries.init fcDupCodes).featuresOf fcDupCodes.features).length
      < fcDupCodes.features.length
    ∧ (LocationBoundaries.init fcDupCodes).fromCode fcDupCodes.features "DEADBEEF"
      = (lastFeatureWith fcDupCodes.features "DEADBEEF").map
          (fun f => { type := fcDupCodes.type, crs := fcDupCodes.crs,
                      features := [f] }) := by
  have h := locationBoundaries_duplicate_codes fcDupCodes (by decide)
  exact ⟨h.1, h.2 "DEADBEEF" (by decide)⟩

/-! ### Claim C5: spend query preserves order and fields -/

/-- C5.  For every decoded JSON array of valid spend objects (each date
text accepted by the `%Y-%m-%d` parse), `query_spending_by_location`
returns one record per array element in the server-provided order, the
`i`-th record copying the `i`-th raw element's `items`, `quantity`,
`actual_cost`, `row_id` and `row_name` exactly and carrying the calendar
date parsed from the raw `YYYY-MM-DD` date text. -/
theorem query_spending_order_and_fields (body : List SpendingBySICBL)
    (hvalid : ∀ raw ∈ body, (parseDateYMD raw.date).isSome = true) :
    ∃ records : List LocationSpend,
      query_spending_by_location body = Except.ok records
      ∧ records.length = body.length
      ∧ ∀ (i : Nat) (raw : SpendingBySICBL), body[i]? = some raw →
          ∃ r : LocationSpend, records[i]? = some r
            ∧ r.items = raw.items ∧ r.quantity = raw.quantity
            ∧ r.actual_cost = raw.actual_cost ∧ r.row_id = raw.row_id
            ∧ r.row_name = raw.row_name
            ∧ parseDateYMD raw.date = some r.date := by
  revert hvalid
  induction body with
  | nil =>
    intro _
    exact ⟨[], rfl, rfl, fun i raw h => absurd h (by simp)⟩
  | cons x xs ih =>
    intro hvalid
    have hx := hvalid x (by simp)
    obtain ⟨d, hd⟩ : ∃ d, parseDateYMD x.date = some d := by
      cases hh : parseDateYMD x.date with
      | some d => exact ⟨d, rfl⟩
      | none => rw [hh] at hx; exact absurd hx (by simp)
    obtain ⟨rs, hrs, hlen, hfields⟩ := ih (fun raw h => hvalid raw (by simp [h]))
    refine ⟨{ items := x.items, quantity := x.quantity, actual_cost := x.actual_cost,
              date := d, row_id := x.row_id, row_name := x.row_name } :: rs,
      ?_, ?_, ?_⟩
    · rw [query_spending_by_location] at hrs ⊢
      simp only [mapFromDict, LocationSpend.from_dict, hd, hrs]
    · simpa using hlen
    · intro i raw h
      cases i with
      | zero =>
        obtain rfl : x = raw := by simpa using h
        refine ⟨{ items := x.items, quantity := x.quantity,
                  actual_cost := x.actual_cost, date := d, row_id := x.row_id,
                  row_name := x.row_name }, by simp, rfl, rfl, rfl, rfl, rfl, ?_⟩
        rw [hd]
      | succ n =>
        have h' : xs[n]? = some raw := by simpa using h
        obtain ⟨r, hr, hrest⟩ := hfields n raw h'
        exact ⟨r, by simpa using hr, hrest⟩

/-- C5, witness: a concrete two-element spend array (the shape of the
repository's test fixture) is parsed in order. -/
theorem query_spending_order_and_fields_witness :
    ∃ records : List LocationSpend,
      query_spending_by_location
        [{ items := 600, quantity := 10000, actual_cost := 12345,
           date := "2022-01-01", row_id := "ABC", row_name := "ANOTHER CCG" },
         { items := 700, quantity := 20250, actual_cost := 23456,
           date := "2022-02-01", row_id := "ABC", row_name := "ANOTHER CCG" }]
        = Except.ok records
      ∧ records.length = 2
      ∧ ∀ (i : Nat) (raw : SpendingBySICBL),
          ([{ items := 600, quantity := 10000, actual_cost := 12345,
              date := "2022-01-01", row_id := "ABC", row_name := "ANOTHER CCG" },
            { items := 700, quantity := 20250, actual_cost := 23456,
              date := "2022-02-01", row_id := "ABC", row_name := "ANOTHER CCG" }]
            : List SpendingBySICBL)[i]? = some raw →
          ∃ r : LocationSpend, records[i]? = some r
            ∧ r.items = raw.items ∧ r.quantity = raw.quantity
            ∧ r.actual_cost = raw.actual_cost ∧ r.row_id = raw.row_id
            ∧ r.row_name = raw.row_name
            ∧ parseDateYMD raw.date = some r.date :=
  query_spending_order_and_fields _ (by decide)
